import Mathlib

/-!
Verification development for the turn-one action-sequencing search engine of
the vintage deck website (`src/App.jsx`).

The JavaScript core is shallowly embedded below:
  * the cost/color model (`parseCmc`, `parseManaCostReq`, `isLand`, `isArtifact`),
  * the mana pool with its payment algorithm (`canPay`, `pay`),
  * the permanent/resource classifier (`getLandKind`, `manaPermanentKind`, ...),
  * the action generator (`castChildren`, `tapChildren`),
  * the bounded depth-first search (`dfs`), the scoring heuristic (`scoreState`)
  * and the mulligan advisor (`analyzeMulligan`).

Machine integers are modelled as `Int`/`Nat` (JS arithmetic here never leaves
the safe integer range).  The opaque unique ids produced by the JS `uniqId`
closure are modelled by a counter threaded through the state (`nextId`); the
point of the id-independence theorem is that their concrete values are
unobservable.  The `crashed` flag records the one place where the original
code raises a `TypeError` (the Tinker resolution effect calls `canPay` with a
non-string cost object after reading the non-existent field `next.mana`);
execution past that point does not happen in JS, the flag marks it.
-/

namespace VintageDeck

/-! ## Small utilities -/

/-- Substring test on character lists: does `hay` contain `needle` as a
contiguous sublist?  Mirrors JavaScript `String.prototype.includes`. -/
def listContainsSub (needle : List Char) : List Char → Bool
  | [] => needle.isEmpty
  | c :: rest => needle.isPrefixOf (c :: rest) || listContainsSub needle rest

/-- String version of `listContainsSub`: `hay.includes(needle)`. -/
def containsSub (hay needle : String) : Bool :=
  listContainsSub needle.data hay.data

/-- ASCII lower-casing of one character (the case JS `toLowerCase` performs
on the type lines involved). -/
def lowerChar (c : Char) : Char :=
  if 65 ≤ c.toNat && c.toNat ≤ 90 then Char.ofNat (c.toNat + 32) else c

/-- Model of `s.toLowerCase()`. -/
def strToLower (s : String) : String := ⟨s.data.map lowerChar⟩

structure Card where
  name : String
  manaCost : String
  typeLine : String
deriving DecidableEq, Repr

/-- Land test: the lower-cased type line contains "land". -/
def isLand (c : Card) : Bool := containsSub (strToLower c.typeLine) "land"

/-- Artifact test: the lower-cased type line contains "artifact". -/
def isArtifact (c : Card) : Bool := containsSub (strToLower c.typeLine) "artifact"

/-! ## Mana cost parsing

JS extracts symbol groups with the global regex match `\x7b([^\x7d]+)\x7d`:
non-overlapping, left-to-right, each group being an opening brace, one or
more non-closing-brace characters, and a closing brace.  `symAux` is the
equivalent left-to-right scanner (the `Option` argument is `some acc` while
inside a candidate group). -/

def symAux : Option (List Char) → List Char → List (List Char)
  | _, [] => []
  | none, c :: rest =>
      if c = '{' then symAux (some []) rest else symAux none rest
  | some acc, c :: rest =>
      if c = '}' then
        if acc.isEmpty then symAux none rest
        else acc.reverse :: symAux none rest
      else symAux (some (c :: acc)) rest

/-- The list of `{...}` group contents of a mana-cost string. -/
def manaSymbols (s : String) : List (List Char) := symAux none s.data

/-- All-digits test on a symbol group, as the source regex performs. -/
def isDigits (c : List Char) : Bool := !c.isEmpty && c.all Char.isDigit

/-- Model of `parseInt(content, 10)` on an all-digit group. -/
def digitsVal (c : List Char) : Nat :=
  c.foldl (fun n d => n * 10 + (d.toNat - 48)) 0

/-- Mana value contributed by one symbol group (branch order as in the
source of `parseCmc`). -/
def cmcSym (c : List Char) : Nat :=
  if isDigits c then digitsVal c
  else if c.contains '/' then (if c.takeWhile (· ≠ '/') = ['2'] then 2 else 1)
  else if c = ['X'] ∨ c = ['Y'] ∨ c = ['Z'] then 0
  else 1

/-- Model of `parseCmc(manaCost)`: mana value of a cost string. -/
def parseCmc (manaCost : String) : Nat :=
  (manaSymbols manaCost).foldl (fun t c => t + cmcSym c) 0

/-- The `ManaCostRequirement` record; field order as in the source object literal. -/
structure Req where
  generic : Nat := 0
  W : Nat := 0
  U : Nat := 0
  B : Nat := 0
  R : Nat := 0
  G : Nat := 0
  C : Nat := 0
deriving DecidableEq, Repr

def addReq (a b : Req) : Req :=
  { generic := a.generic + b.generic, W := a.W + b.W, U := a.U + b.U
    B := a.B + b.B, R := a.R + b.R, G := a.G + b.G, C := a.C + b.C }

/-- Requirement contributed by one symbol group (branch order as in the
source loop of `parseManaCostReq`: digits, X/Y/Z, C, hybrid, colors, else). -/
def reqSym (c : List Char) : Req :=
  if isDigits c then { generic := digitsVal c }
  else if c = ['X'] ∨ c = ['Y'] ∨ c = ['Z'] then {}
  else if c = ['C'] then { C := 1 }
  else if c.contains '/' then { generic := 1 }
  else if c = ['W'] then { W := 1 }
  else if c = ['U'] then { U := 1 }
  else if c = ['B'] then { B := 1 }
  else if c = ['R'] then { R := 1 }
  else if c = ['G'] then { G := 1 }
  else { generic := 1 }

/-- Model of `parseManaCostReq(manaCost)`. -/
def parseManaCostReq (manaCost : String) : Req :=
  (manaSymbols manaCost).foldl (fun r c => addReq r (reqSym c)) {}

/-! ## Mana pool -/

/-- The mana pool record with fields W, U, B, R, G, C and flex; `C` is
strict colorless, `flex` is "any color" mana. -/
structure Pool where
  W : Int
  U : Int
  B : Int
  R : Int
  G : Int
  C : Int
  flex : Int
deriving DecidableEq, Repr

def emptyPool : Pool := ⟨0, 0, 0, 0, 0, 0, 0⟩

def addPool (p q : Pool) : Pool :=
  ⟨p.W + q.W, p.U + q.U, p.B + q.B, p.R + q.R, p.G + q.G, p.C + q.C,
    p.flex + q.flex⟩

def sumMana (p : Pool) : Int := p.W + p.U + p.B + p.R + p.G + p.C + p.flex

/-- All seven fields non-negative. -/
def PoolNonneg (p : Pool) : Prop :=
  0 ≤ p.W ∧ 0 ≤ p.U ∧ 0 ≤ p.B ∧ 0 ≤ p.R ∧ 0 ≤ p.G ∧ 0 ≤ p.C ∧ 0 ≤ p.flex

instance (p : Pool) : Decidable (PoolNonneg p) := by
  unfold PoolNonneg; infer_instance

/-- One iteration of the colored-payment loop of `canPay`:
`fromCol = Math.min(p[col], need); p[col] -= fromCol;` then the shortfall is
taken from `flex`, failing if `flex` is insufficient.  Returns the updated
`(own, flex)` pair. -/
def colorStep (own flex : Int) (need : Nat) : Option (Int × Int) :=
  if need = 0 then some (own, flex)
  else
    let fromCol := min own (need : Int)
    let own' := own - fromCol
    let remain := (need : Int) - fromCol
    if 0 < remain then
      if flex < remain then none else some (own', flex - remain)
    else some (own', flex)

/-- The same iteration in `pay`, which performs no check and may drive `flex`
negative. -/
def colorStepPay (own flex : Int) (need : Nat) : Int × Int :=
  if need = 0 then (own, flex)
  else
    let fromCol := min own (need : Int)
    let own' := own - fromCol
    let remain := (need : Int) - fromCol
    if 0 < remain then (own', flex - remain) else (own', flex)

/-- Model of `canPay(pool, manaCost)`. -/
def canPay (pool : Pool) (manaCost : String) : Bool :=
  let req := parseManaCostReq manaCost
  -- 1) strict colorless only from C
  if pool.C < (req.C : Int) then false
  else
    let c0 := pool.C - (req.C : Int)
    -- 2) colored requirements, in the order W U B R G
    match colorStep pool.W pool.flex req.W with
    | none => false
    | some (w, f1) =>
      match colorStep pool.U f1 req.U with
      | none => false
      | some (u, f2) =>
        match colorStep pool.B f2 req.B with
        | none => false
        | some (b, f3) =>
          match colorStep pool.R f3 req.R with
          | none => false
          | some (r, f4) =>
            match colorStep pool.G f4 req.G with
            | none => false
            | some (g, f5) =>
              -- 3) generic from everything remaining
              decide ((req.generic : Int) ≤ w + u + b + r + g + f5 + c0)

/-- One `take(k)` of the generic stage of `pay`:
`n = Math.min(p[k], g); p[k] -= n; g -= n`. -/
def takeStep (v g : Int) : Int × Int := (v - min v g, g - min v g)

/-- Model of `pay(pool, manaCost)`; performs no sufficiency checks. -/
def pay (pool : Pool) (manaCost : String) : Pool :=
  let req := parseManaCostReq manaCost
  -- {C}
  let c0 := pool.C - (req.C : Int)
  -- colored, in the order W U B R G, threading flex
  let sW := colorStepPay pool.W pool.flex req.W
  let sU := colorStepPay pool.U sW.2 req.U
  let sB := colorStepPay pool.B sU.2 req.B
  let sR := colorStepPay pool.R sB.2 req.R
  let sG := colorStepPay pool.G sR.2 req.G
  -- generic, spent in the fixed order C, flex, W, U, B, R, G
  let tC := takeStep c0 (req.generic : Int)
  let tF := takeStep sG.2 tC.2
  let tW := takeStep sW.1 tF.2
  let tU := takeStep sU.1 tW.2
  let tB := takeStep sB.1 tU.2
  let tR := takeStep sR.1 tB.2
  let tG := takeStep sG.1 tR.2
  ⟨tW.1, tU.1, tB.1, tR.1, tG.1, tC.1, tF.1⟩

/-! ### The payment order specification (claim C5)

`paySpec` is written from the specification text of §4.2: the strict
colorless requirement is paid only from the strict-colorless field, each
colored requirement first from its own color with the shortfall from flex,
and the generic requirement from the remaining supply in the priority order
strictColorless, flex, W, U, B, R, G. -/

inductive PoolSlot | slotW | slotU | slotB | slotR | slotG | slotC | slotFlex
deriving DecidableEq, Repr

def getSlot (p : Pool) : PoolSlot → Int
  | .slotW => p.W
  | .slotU => p.U
  | .slotB => p.B
  | .slotR => p.R
  | .slotG => p.G
  | .slotC => p.C
  | .slotFlex => p.flex

def setSlot (p : Pool) : PoolSlot → Int → Pool
  | .slotW, v => { p with W := v }
  | .slotU, v => { p with U := v }
  | .slotB, v => { p with B := v }
  | .slotR, v => { p with R := v }
  | .slotG, v => { p with G := v }
  | .slotC, v => { p with C := v }
  | .slotFlex, v => { p with flex := v }

def reqOfSlot (req : Req) : PoolSlot → Nat
  | .slotW => req.W
  | .slotU => req.U
  | .slotB => req.B
  | .slotR => req.R
  | .slotG => req.G
  | .slotC => req.C
  | .slotFlex => 0

/-- Payment algorithm as worded by the specification (§4.2). -/
def paySpec (pool : Pool) (cost : String) : Pool :=
  let req := parseManaCostReq cost
  -- 1. the strict-colorless requirement is paid only from strictColorless
  let p0 := setSlot pool .slotC (pool.C - (req.C : Int))
  -- 2. each colored requirement: first from its own color, shortfall from flex
  let p1 := [PoolSlot.slotW, .slotU, .slotB, .slotR, .slotG].foldl
    (fun p f =>
      let s := colorStepPay (getSlot p f) p.flex (reqOfSlot req f)
      setSlot (setSlot p f s.1) .slotFlex s.2) p0
  -- 3. generic from remaining supply, priority strictColorless, flex, W, U, B, R, G
  ([PoolSlot.slotC, .slotFlex, .slotW, .slotU, .slotB, .slotR, .slotG].foldl
    (fun (pg : Pool × Int) f =>
      let t := takeStep (getSlot pg.1 f) pg.2
      (setSlot pg.1 f t.1, t.2)) (p1, (req.generic : Int))).1

/-! ## Permanent / resource classifier -/

inductive LandKind | academy | anyColorLife | startingTown | colorless
deriving DecidableEq, Repr

/-- Model of `getLandKind(name)`. -/
def getLandKind (name : String) : LandKind :=
  if name = "Tolarian Academy" then .academy
  else if name = "City of Brass" then .anyColorLife
  else if name = "Mana Confluence" then .anyColorLife
  else if name = "Starting Town" then .startingTown
  else .colorless

inductive RockKind | mox | opal | crypt | ring | vault
deriving DecidableEq, Repr

/-- Model of `manaPermanentKind(name)`.  Note the source tests
`name.startsWith("Mox ")` first, so `"Mox Opal"` is classified `mox` and the
`opal` branch is unreachable from this function. -/
def manaPermanentKind (name : String) : Option RockKind :=
  if "Mox ".data.isPrefixOf name.data then some .mox
  else if name = "Mox Opal" then some .opal
  else if name = "Mana Crypt" then some .crypt
  else if name = "Sol Ring" then some .ring
  else if name = "Mana Vault" then some .vault
  else none

inductive Color | colW | colU | colB | colR | colG
deriving DecidableEq, Repr

def colorStr : Color → String
  | .colW => "W"
  | .colU => "U"
  | .colB => "B"
  | .colR => "R"
  | .colG => "G"

def poolOfColor : Color → Pool
  | .colW => ⟨1, 0, 0, 0, 0, 0, 0⟩
  | .colU => ⟨0, 1, 0, 0, 0, 0, 0⟩
  | .colB => ⟨0, 0, 1, 0, 0, 0, 0⟩
  | .colR => ⟨0, 0, 0, 1, 0, 0, 0⟩
  | .colG => ⟨0, 0, 0, 0, 1, 0, 0⟩

/-- Model of `getMoxColor(name)`. -/
def getMoxColor (name : String) : Option Color :=
  if name = "Mox Pearl" then some .colW
  else if name = "Mox Sapphire" then some .colU
  else if name = "Mox Jet" then some .colB
  else if name = "Mox Ruby" then some .colR
  else if name = "Mox Emerald" then some .colG
  else none

def isOneShotMana (name : String) : Bool :=
  name = "Black Lotus" || name = "Lotus Petal"

def oneShotYield (name : String) : Nat :=
  if name = "Black Lotus" then 3
  else if name = "Lotus Petal" then 1
  else 0

def IMPORTANT_CASTS : List String :=
  [ "Sol Ring", "Mana Vault", "Sensei\x27s Divining Top", "Vexing Bauble",
    "Voltaic Key", "Manifold Key", "Time Vault", "Crop Rotation",
    "Tinker", "Karn, the Great Creator", "Narset, Parter of Veils",
    "Trinisphere", "Paradoxical Outcome", "Tezzeret the Seeker",
    "Tezzeret, Cruel Captain", "Trinket Mage", "Balance", "Timetwister",
    "Ancestral Recall", "Brainstorm", "Ponder", "Mystical Tutor",
    "Vampiric Tutor", "Demonic Tutor" ]

def INTERACTION : List String :=
  [ "Force of Will", "Force of Negation", "Flusterstorm", "Mental Misstep",
    "Pyroblast", "Veil of Summer", "Cabal Therapy" ]

def isSelectionSpell (name : String) : Bool :=
  name ∈ [ "Ancestral Recall", "Brainstorm", "Ponder", "Gitaxian Probe",
    "Mystical Tutor", "Vampiric Tutor", "Demonic Tutor",
    "Sensei\x27s Divining Top", "Paradoxical Outcome" ]

def isPayoff (name : String) : Bool :=
  name ∈ [ "Tinker", "Karn, the Great Creator", "Narset, Parter of Veils",
    "Trinisphere", "Time Vault", "Tezzeret the Seeker",
    "Tezzeret, Cruel Captain", "Paradoxical Outcome" ]

/-! ## Search state -/

/-- A battlefield permanent: a card spread together with a unique `_id` and a
`tapped` flag (the `zone` field of the source object is constant and
omitted). -/
structure Perm where
  name : String
  manaCost : String
  typeLine : String
  id : Nat
  tapped : Bool
deriving DecidableEq, Repr

def isLandP (p : Perm) : Bool := containsSub (strToLower p.typeLine) "land"

def isArtifactP (p : Perm) : Bool := containsSub (strToLower p.typeLine) "artifact"

/-- Turn a hand card into a fresh untapped permanent with the given id. -/
def permOf (c : Card) (n : Nat) : Perm :=
  ⟨c.name, c.manaCost, c.typeLine, n, false⟩

/-- The card fields of a bounced permanent
(`{ name: p.name, typeLine: p.typeLine, manaCost: p.manaCost }`; a permanent
created without a `manaCost`, like the fetched Tolarian Academy, reads back
as the empty string). -/
def cardOf (p : Perm) : Card := ⟨p.name, p.manaCost, p.typeLine⟩

/-- The `SearchState` record.  `nextId` threads the JS `uniqId` counter; `crashed`
records that the original code would have thrown a `TypeError` (see the
module docstring). -/
structure SimState where
  hand : List Card
  battlefield : List Perm
  pool : Pool
  landName : Option String
  cast : List String
  notes : List String
  nextId : Nat
  crashed : Bool
deriving DecidableEq, Repr

/-- The deck index, reduced to the membership interface the engine uses. -/
structure DeckIndex where
  mainNames : List String
  sideNames : List String
deriving DecidableEq, Repr

def DeckIndex.hasInMain (d : DeckIndex) (name : String) : Bool :=
  name ∈ d.mainNames

def getArtifactsCount (battlefield : List Perm) : Nat :=
  (battlefield.filter isArtifactP).length

/-- Mark the permanent carrying the given id as tapped, as each tap action
does by mapping over the battlefield. -/
def setTapped (battlefield : List Perm) (id : Nat) : List Perm :=
  battlefield.map fun c => if c.id = id then { c with tapped := true } else c

/-! ## Action generator: tap actions -/

/-- The tap-source children contributed by one untapped permanent, already
applied to the generating state `s` (the JS action list is built from `s`
and each `run` is invoked on that same `s` in `dfs`). -/
def permChildren (s : SimState) (artifactsCount : Nat) (perm : Perm) :
    List SimState :=
  if isLandP perm then
    if getLandKind perm.name = .academy then
      -- Tolarian Academy taps for U per artifact you control
      let n := getArtifactsCount s.battlefield
      [{ s with
          pool := addPool s.pool ⟨0, (n : Int), 0, 0, 0, 0, 0⟩
          battlefield := setTapped s.battlefield perm.id
          notes := s.notes ++
            ["Tap Academy for " ++ toString n ++ "U (artifacts: " ++
              toString n ++ ")"] }]
    else if perm.name = "Starting Town" then
      -- either {C}, or (pay 1 life) any color
      [{ s with
          pool := addPool s.pool ⟨0, 0, 0, 0, 0, 1, 0⟩
          battlefield := setTapped s.battlefield perm.id
          notes := s.notes ++ ["Tap Starting Town for C"] },
        { s with
          pool := addPool s.pool ⟨0, 0, 0, 0, 0, 0, 1⟩
          battlefield := setTapped s.battlefield perm.id
          notes := s.notes ++
            ["Tap Starting Town for any color (pay 1 life)"] }]
    else if getLandKind perm.name = .anyColorLife then
      [{ s with
          pool := addPool s.pool ⟨0, 0, 0, 0, 0, 0, 1⟩
          battlefield := setTapped s.battlefield perm.id
          notes := s.notes ++
            ["Tap " ++ perm.name ++ " for any color (pay 1 life)"] }]
    else
      [{ s with
          pool := addPool s.pool ⟨0, 0, 0, 0, 0, 1, 0⟩
          battlefield := setTapped s.battlefield perm.id
          notes := s.notes ++ ["Tap " ++ perm.name ++ " for C"] }]
  else if isOneShotMana perm.name then
    -- one-shot mana in play (lotus/petal): crack, removing the permanent
    let n := oneShotYield perm.name
    [{ s with
        pool := addPool s.pool ⟨0, 0, 0, 0, 0, 0, (n : Int)⟩
        battlefield := s.battlefield.filter (fun c => c.id ≠ perm.id)
        notes := s.notes ++
          ["Sac " ++ perm.name ++ " for " ++ toString n ++ " mana"] }]
  else
    match manaPermanentKind perm.name with
    | none => []
    | some .mox =>
      match getMoxColor perm.name with
      | none => []
      | some col =>
        [{ s with
            pool := addPool s.pool (poolOfColor col)
            battlefield := setTapped s.battlefield perm.id
            notes := s.notes ++
              ["Tap " ++ perm.name ++ " for " ++ colorStr col] }]
    | some .opal =>
      -- requires metalcraft (3+ artifacts); unreachable, see manaPermanentKind
      if artifactsCount < 3 then []
      else
        [{ s with
            pool := addPool s.pool ⟨0, 0, 0, 0, 0, 0, 1⟩
            battlefield := setTapped s.battlefield perm.id
            notes := s.notes ++ ["Tap Mox Opal for any color (metalcraft)"] }]
    | some .crypt =>
      [{ s with
          pool := addPool s.pool ⟨0, 0, 0, 0, 0, 2, 0⟩
          battlefield := setTapped s.battlefield perm.id
          notes := s.notes ++ ["Tap Mana Crypt for CC"] }]
    | some .ring =>
      [{ s with
          pool := addPool s.pool ⟨0, 0, 0, 0, 0, 2, 0⟩
          battlefield := setTapped s.battlefield perm.id
          notes := s.notes ++ ["Tap Sol Ring for CC"] }]
    | some .vault =>
      [{ s with
          pool := addPool s.pool ⟨0, 0, 0, 0, 0, 3, 0⟩
          battlefield := setTapped s.battlefield perm.id
          notes := s.notes ++ ["Tap Mana Vault for CCC"] }]

/-- Model of `untappedManaPermanents(state)`, with each action applied to
`state`. -/
def tapChildren (s : SimState) : List SimState :=
  s.battlefield.flatMap fun perm =>
    if perm.tapped then []
    else permChildren s (getArtifactsCount s.battlefield) perm

/-! ## Action generator: cast actions -/

/-- Cards the source treats as castable for free: Gitaxian Probe and
Mental Misstep. -/
def forcedFree (name : String) : Bool :=
  name = "Gitaxian Probe" || name = "Mental Misstep"

/-- Castability filter of `castableCards`. -/
def castOk (s : SimState) (c : Card) : Bool :=
  (parseCmc c.manaCost == 0 && isArtifact c) || forcedFree c.name ||
    canPay s.pool c.manaCost

/-- Create permanents for a run of cards, assigning consecutive fresh ids
starting at `n`. -/
def assignPerms (cards : List Card) (n : Nat) : List Perm :=
  match cards with
  | [] => []
  | c :: rest => permOf c n :: assignPerms rest (n + 1)

/-- Paradoxical Outcome resolution: bounce all artifacts to hand, then
immediately replay the 0-cost ones. -/
def poEffect (st : SimState) : SimState :=
  let bounce := st.battlefield.filter isArtifactP
  if 0 < bounce.length then
    let bf2 := st.battlefield.filter fun p => !isArtifactP p
    let hand2 := st.hand ++ bounce.map cardOf
    let zeroCosters := hand2.filter fun h =>
      isArtifact h && parseCmc h.manaCost == 0
    let st2 :=
      if 0 < zeroCosters.length then
        { st with
            hand := hand2.filter fun h =>
              !(isArtifact h && parseCmc h.manaCost == 0)
            battlefield := bf2 ++ assignPerms zeroCosters st.nextId
            nextId := st.nextId + zeroCosters.length }
      else { st with hand := hand2, battlefield := bf2 }
    { st2 with
        notes := st2.notes ++
          ["PO → bounce " ++ toString bounce.length ++ " artifacts, draw " ++
            toString bounce.length ++ ", replay " ++
            toString zeroCosters.length ++ " free artifacts"] }
  else st

/-- Crop Rotation resolution: sacrifice the first land on the battlefield and
fetch Tolarian Academy, when the guard holds. -/
def cropEffect (deck : DeckIndex) (st : SimState) : SimState :=
  let hasLandToSac := st.battlefield.any isLandP
  let artifactsCount := (st.battlefield.filter isArtifactP).length
  if hasLandToSac && decide (2 ≤ artifactsCount) &&
      deck.hasInMain "Tolarian Academy" then
    match st.battlefield.find? isLandP with
    | some landToSac =>
      { st with
          battlefield :=
            (st.battlefield.filter fun p => p.id ≠ landToSac.id) ++
              [⟨"Tolarian Academy", "", "Land", st.nextId, false⟩]
          nextId := st.nextId + 1
          notes := st.notes ++
            ["Crop Rotation → sacrifice " ++ landToSac.name ++
              ", fetch Tolarian Academy (" ++ toString artifactsCount ++
              " artifacts)"] }
    | none => st
  else st

/-- Tinker resolution.  The two combo branches below call `canPay` on
`manaAfterTinker` with an object cost of two (resp. three) colorless in the
source; `manaAfterTinker` spreads the non-existent field `next.mana`, the
cost is an object rather than a string, so `parseManaCostReq` invokes
`.match` on a non-string and JS throws a `TypeError`.  The model records
this point as `crashed := true`. -/
def tinkerEffect (deck : DeckIndex) (st : SimState) : SimState :=
  let hasSacArtifact := st.battlefield.any fun p =>
    isArtifactP p && p.name ≠ "Blightsteel Colossus"
  let blightsteelInHand := st.hand.any fun h => h.name = "Blightsteel Colossus"
  let hasVaultInHand := st.hand.any fun h => h.name = "Time Vault"
  let hasKeyInHand := st.hand.any fun h =>
    h.name = "Voltaic Key" || h.name = "Manifold Key"
  let st1 :=
    if hasSacArtifact && deck.hasInMain "Blightsteel Colossus" &&
        !blightsteelInHand then
      { st with
          notes := st.notes ++
            ["Tinker → Blightsteel Colossus (artifact to sacrifice assumed)"] }
    else st
  if hasSacArtifact && hasKeyInHand && !hasVaultInHand &&
      deck.hasInMain "Time Vault" then
    { st1 with crashed := true }
  else if hasSacArtifact && hasVaultInHand && !hasKeyInHand &&
      (deck.hasInMain "Voltaic Key" || deck.hasInMain "Manifold Key") then
    { st1 with crashed := true }
  else st1

/-- The state updates of a cast before any resolution effect: mana paid
(free-phyrexian cases spend none), card out of hand and into the cast log,
permanent created for artifact/planeswalker types, note appended. -/
def castBase (s : SimState) (c : Card) : SimState :=
  let isPermType :=
    isArtifact c || containsSub (strToLower c.typeLine) "planeswalker"
  { s with
      pool :=
        if !forcedFree c.name && decide (0 < parseCmc c.manaCost) then
          pay s.pool c.manaCost
        else s.pool
      hand := s.hand.erase c
      cast := s.cast ++ [c.name]
      battlefield :=
        if isPermType then s.battlefield ++ [permOf c s.nextId]
        else s.battlefield
      nextId := if isPermType then s.nextId + 1 else s.nextId
      notes := s.notes ++ ["Cast " ++ c.name] }

/-- The `run` of a cast action for hand card `c`, applied to `s`. -/
def castRun (deck : DeckIndex) (s : SimState) (c : Card) : SimState :=
  if isLand c then
    -- "shouldn't happen here": early return, no note, no permanent
    { s with
        pool :=
          if !forcedFree c.name && decide (0 < parseCmc c.manaCost) then
            pay s.pool c.manaCost
          else s.pool
        hand := s.hand.erase c
        cast := s.cast ++ [c.name] }
  else
    let st := castBase s c
    let st := if c.name = "Paradoxical Outcome" then poEffect st else st
    let st := if c.name = "Crop Rotation" then cropEffect deck st else st
    let st := if c.name = "Tinker" then tinkerEffect deck st else st
    st

/-- Model of `castableCards(state)`, with each action applied to `state`. -/
def castChildren (deck : DeckIndex) (s : SimState) : List SimState :=
  ((s.hand.filter fun c => c.name ∈ IMPORTANT_CASTS).filter
    (castOk s)).map (castRun deck s)

/-- All legal actions of a state, casts first, each applied to the state. -/
def childrenOf (deck : DeckIndex) (s : SimState) : List SimState :=
  castChildren deck s ++ tapChildren s

/-! ## Scoring heuristic -/

def bfHas (s : SimState) (name : String) : Bool :=
  s.battlefield.any fun p => p.name = name

def handHas (s : SimState) (name : String) : Bool :=
  s.hand.any fun c => c.name = name

/-- Vault plus an untap engine: infinite turns. -/
def infiniteTurnsD (s : SimState) : Bool :=
  bfHas s "Time Vault" &&
    (bfHas s "Tezzeret, Cruel Captain" || bfHas s "Tezzeret the Seeker" ||
      ((bfHas s "Voltaic Key" || bfHas s "Manifold Key") &&
        (decide (1 ≤ sumMana s.pool) || bfHas s "Tezzeret the Seeker")))

/-- A note recorded a Tinker → Blightsteel line. -/
def tinkerWinD (s : SimState) : Bool :=
  s.notes.any fun n => containsSub n "Tinker → Blightsteel"

def trinketVaultWinD (s : SimState) : Bool :=
  handHas s "Trinket Mage" && handHas s "Time Vault" &&
    !bfHas s "Trinket Mage" && !bfHas s "Time Vault" &&
    decide (7 ≤ sumMana s.pool)

def demonicVaultWinD (s : SimState) : Bool :=
  handHas s "Demonic Tutor" && handHas s "Time Vault" &&
    !bfHas s "Time Vault" && !handHas s "Voltaic Key" &&
    !handHas s "Manifold Key" && decide (5 ≤ sumMana s.pool) &&
    decide (1 ≤ s.pool.B)

def vaultKeyForceBackupD (s : SimState) : Bool :=
  (handHas s "Time Vault" || bfHas s "Time Vault") &&
    (handHas s "Voltaic Key" || handHas s "Manifold Key" ||
      bfHas s "Voltaic Key" || bfHas s "Manifold Key") &&
    handHas s "Demonic Tutor" && !handHas s "Force of Will" &&
    (s.hand.any fun c =>
      containsSub c.manaCost "{U}" && c.name ≠ "Demonic Tutor") &&
    decide (5 ≤ sumMana s.pool) && decide (1 ≤ s.pool.B)

def trinketBaubleD (s : SimState) : Bool :=
  handHas s "Trinket Mage" && !bfHas s "Trinket Mage" &&
    !bfHas s "Vexing Bauble" && !handHas s "Vexing Bauble" &&
    decide (4 ≤ sumMana s.pool) && decide (1 ≤ s.pool.U)

def tezzBaubleD (s : SimState) : Bool :=
  handHas s "Tezzeret, Cruel Captain" && !bfHas s "Tezzeret, Cruel Captain" &&
    !bfHas s "Vexing Bauble" && !handHas s "Vexing Bauble" &&
    decide (4 ≤ sumMana s.pool)

def tezzTimeWalkWinD (s : SimState) : Bool :=
  (handHas s "Tezzeret the Seeker" || bfHas s "Tezzeret the Seeker") &&
    handHas s "Time Walk" && decide (2 ≤ s.pool.U) &&
    decide (5 ≤ sumMana s.pool) &&
    decide (4 ≤ (s.battlefield.filter isArtifactP).length) &&
    decide (2 ≤ (s.battlefield.filter fun c =>
      isArtifactP c &&
        match manaPermanentKind c.name with
        | some .mox | some .crypt | some .ring | some .vault | some .opal =>
          true
        | none => false).length)

def balanceComboD (s : SimState) : Bool :=
  handHas s "Balance" && decide (4 ≤ s.cast.length) &&
    decide (s.hand.length ≤ 3) && decide (2 ≤ sumMana s.pool) &&
    decide (1 ≤ s.pool.W)

/-- The "big T1" plays detector. -/
def bigD (s : SimState) : Bool :=
  bfHas s "Karn, the Great Creator" || bfHas s "Narset, Parter of Veils" ||
    bfHas s "Tezzeret, Cruel Captain" || bfHas s "Trinisphere" ||
    bfHas s "Vexing Bauble" || s.cast.contains "Paradoxical Outcome" ||
    bfHas s "Timetwister" || balanceComboD s || trinketBaubleD s ||
    tezzBaubleD s

def castSelectionD (s : SimState) : Bool := s.cast.any isSelectionSpell

def ancestralWithForceD (s : SimState) : Bool :=
  handHas s "Ancestral Recall" && handHas s "Force of Will" &&
    decide (1 ≤ sumMana s.pool) && decide (1 ≤ s.pool.U)

def tutorForTinkerD (s : SimState) : Bool :=
  (handHas s "Mystical Tutor" || handHas s "Vampiric Tutor") &&
    !handHas s "Tinker" &&
    decide (3 ≤ (s.battlefield.filter isArtifactP).length) &&
    ((handHas s "Mystical Tutor" && decide (1 ≤ s.pool.U) &&
        decide (4 ≤ sumMana s.pool)) ||
      (handHas s "Vampiric Tutor" && decide (1 ≤ s.pool.B) &&
        decide (3 ≤ sumMana s.pool)))

/-- Permanent mana sources in play (lands, mana rocks, uncracked
lotus/petal). -/
def permanentManaCount (s : SimState) : Nat :=
  (s.battlefield.filter fun c =>
    (isArtifactP c || isLandP c) &&
      ((manaPermanentKind c.name).isSome || isLandP c ||
        isOneShotMana c.name)).length

/-- Any of the six "virtual win / hard lock" detectors. -/
def virtualWinD (s : SimState) : Bool :=
  infiniteTurnsD s || tinkerWinD s || trinketVaultWinD s ||
    demonicVaultWinD s || vaultKeyForceBackupD s || tezzTimeWalkWinD s

structure ScoreFlags where
  infiniteTurns : Bool
  tinkerWin : Bool
  trinketVaultWin : Bool
  demonicVaultWin : Bool
  vaultKeyForceBackup : Bool
  tezzTimeWalkWin : Bool
  big : Bool
  castSelection : Bool
deriving DecidableEq, Repr

structure Scored where
  score : Int
  tier : Nat
  flags : ScoreFlags
deriving DecidableEq, Repr

/-- Model of `scoreState(state)`. -/
def scoreState (s : SimState) : Scored :=
  let poolTotal := sumMana s.pool
  let score : Int :=
    (if virtualWinD s then 1000 else 0) +
      (if bigD s then 200 else 0) +
      (if ancestralWithForceD s then 150 else 0) +
      (if tutorForTinkerD s then 120 else 0) +
      (if castSelectionD s then 60 else 0) +
      min 60 (poolTotal * 10) +
      min 30 ((permanentManaCount s : Int) * 4)
  let tier : Nat :=
    if virtualWinD s then 3
    else if bigD s then 2
    else if castSelectionD s || decide (2 ≤ poolTotal) then 1
    else 0
  { score := score, tier := tier
    flags :=
      { infiniteTurns := infiniteTurnsD s, tinkerWin := tinkerWinD s
        trinketVaultWin := trinketVaultWinD s
        demonicVaultWin := demonicVaultWinD s
        vaultKeyForceBackup := vaultKeyForceBackupD s
        tezzTimeWalkWin := tezzTimeWalkWinD s, big := bigD s
        castSelection := castSelectionD s } }

/-! ## Canonical state keys and the depth-first search -/

/-- Boolean lexicographic order used to model the JS array sort on strings
(the canonical key only depends on the sorted permutation, so any total
order is observationally equivalent to the UTF-16 code-unit order). -/
def charListLe : List Char → List Char → Bool
  | [], _ => true
  | _ :: _, [] => false
  | a :: as, b :: bs =>
    if a = b then charListLe as bs else decide (a.toNat < b.toNat)

def strLeB (a b : String) : Bool := charListLe a.data b.data

def insortStr (x : String) : List String → List String
  | [] => [x]
  | y :: ys => if strLeB x y then x :: y :: ys else y :: insortStr x ys

def sortStrs (l : List String) : List String := l.foldr insortStr []

/-- The name-colon-tapped entry of the canonical key. -/
def bfKeyStr (p : Perm) : String :=
  p.name ++ ":" ++ (if p.tapped then "1" else "0")

/-- Canonical state key: chosen land, sorted hand names, sorted battlefield
`name:tapped` pairs, pool (the JS `JSON.stringify` of this record is
injective on these components). -/
structure StateKey where
  land : Option String
  hand : List String
  bf : List String
  pool : Pool
deriving DecidableEq, Repr

def stateKey (s : SimState) : StateKey :=
  { land := s.landName
    hand := sortStrs (s.hand.map Card.name)
    bf := sortStrs (s.battlefield.map bfKeyStr)
    pool := s.pool }

/-- The running best result (`score = none` models the initial
`-Infinity`). -/
structure Best where
  score : Option Int
  tier : Nat
  notes : List String
  final : Option SimState
deriving DecidableEq, Repr

def bestInit : Best := { score := none, tier := 0, notes := [], final := none }

/-- The improvement test: strictly higher score, or equal score with
strictly higher tier. -/
def betterThan (sc : Scored) (b : Best) : Bool :=
  match b.score with
  | none => true
  | some v => decide (v < sc.score) || (decide (sc.score = v) &&
      decide (b.tier < sc.tier))

def updateBest (b : Best) (sc : Scored) (s : SimState) : Best :=
  if betterThan sc b then
    { score := some sc.score, tier := sc.tier, notes := s.notes
      final := some s }
  else b

/-- Model of `dfs(state, depth, seen)`, with `fuel = 18 - depth`: the node is always
keyed, deduplicated and scored; expansion stops at depth 18 (`fuel = 0`) or
when no actions remain.  `seen` and the best record are threaded
explicitly. -/
def dfs (deck : DeckIndex) : Nat → SimState → List StateKey → Best →
    List StateKey × Best
  | 0, s, seen, best =>
    let key := stateKey s
    if key ∈ seen then (seen, best)
    else (key :: seen, updateBest best (scoreState s) s)
  | fuel + 1, s, seen, best =>
    let key := stateKey s
    if key ∈ seen then (seen, best)
    else
      let seen1 := key :: seen
      let best1 := updateBest best (scoreState s) s
      let kids := childrenOf deck s
      if kids.isEmpty then (seen1, best1)
      else kids.foldl (fun acc c => dfs deck fuel c acc.1 acc.2) (seen1, best1)

/-! ## simulateTurn1 and the mulligan advisor -/

/-- The pre-play loop of `simulateTurn1`: move all 0-cost artifacts from an
incoming hand to the battlefield (assigning fresh ids) and keep the rest;
returns `(battlefieldBase, remainingHandBase, next fresh id)`. -/
def splitBase : List Card → Nat → List Perm × List Card × Nat
  | [], n => ([], [], n)
  | c :: rest, n =>
    if isArtifact c && !isLand c && parseCmc c.manaCost == 0 then
      let r := splitBase rest (n + 1)
      (permOf c n :: r.1, r.2.1, r.2.2)
    else
      let r := splitBase rest n
      (r.1, c :: r.2.1, r.2.2)

def startNote (bfBase : List Perm) : String :=
  "Start (0-cost artifacts played: " ++
    (if bfBase.isEmpty then "none"
      else String.intercalate ", " (bfBase.map Perm.name)) ++ ")"

def landNote : Option Card → String
  | some land => "Play land: " ++ land.name
  | none => "No land in hand"

/-- The root state of one land-choice branch. -/
def branchRoot (bfBase : List Perm) (nonLands : List Card) (nid : Nat)
    (lc : Option Card) : SimState :=
  let bf := match lc with
    | some land => bfBase ++ [permOf land nid]
    | none => bfBase
  { hand := nonLands
    battlefield := bf
    pool := emptyPool
    landName := lc.map Card.name
    cast := []
    notes := [startNote bfBase, landNote lc]
    nextId := match lc with
      | some _ => nid + 1
      | none => nid
    crashed := false }

/-- The root states the engine actually searches, one per chosen land (or a
single no-land branch). -/
def mkRoots (hand : List Card) (idStart : Nat) : List SimState :=
  let base := splitBase hand idStart
  let landsInHand := base.2.1.filter isLand
  let nonLands := base.2.1.filter fun c => !isLand c
  let landChoices : List (Option Card) :=
    if landsInHand.isEmpty then [none] else landsInHand.map some
  landChoices.map (branchRoot base.1 nonLands base.2.2)

structure SimRes where
  tier : Nat
  bestLine : List String
  final : Option SimState
deriving DecidableEq, Repr

/-- Model of `simulateTurn1` on a hand and deck index; `idStart` models the value of the
global `uniqId` counter when the call begins. -/
def simulateTurn1 (hand : List Card) (deck : DeckIndex) (idStart : Nat) :
    SimRes :=
  let best := (mkRoots hand idStart).foldl
    (fun b root => (dfs deck 18 root [] b).2) bestInit
  { tier := best.tier, bestLine := best.notes, final := best.final }

structure HandStats where
  lands : Nat
  interaction : Nat
  selection : Nat
  payoff : Nat
  tier : Nat
deriving DecidableEq, Repr

structure AdvRes where
  decision : String
  reasons : List String
  line : List String
  stats : HandStats
deriving DecidableEq, Repr

/-- Fast-mana artifacts of the tier-0 special case: 0-or-1-cost artifact
mana rocks. -/
def fastManaCount (hand : List Card) : Nat :=
  (hand.filter fun c =>
    isArtifact c && (parseCmc c.manaCost == 0 || parseCmc c.manaCost == 1) &&
      (manaPermanentKind c.name).isSome).length

/-- Model of `analyzeMulligan` on a hand and deck index. -/
def analyzeMulligan (hand : List Card) (deck : DeckIndex) (idStart : Nat) :
    AdvRes :=
  let lands := (hand.filter isLand).length
  let interaction := (hand.filter fun c => c.name ∈ INTERACTION).length
  let selection := (hand.filter fun c => isSelectionSpell c.name).length
  let payoff := (hand.filter fun c => isPayoff c.name).length
  let sim := simulateTurn1 hand deck idStart
  let reasons :=
    [ if sim.tier = 3 then
        "🏆 Virtual win / hard lock line found (or Tinker→Blightsteel). Keep."
      else if sim.tier = 2 then
        "✅ Strong T1 line found (payoff/lock/draw engine). Keep."
      else if sim.tier = 1 then
        "✅ Functional T1 line found (mana + selection / development). Usually keep."
      else "⚠️ No coherent T1 line found in this hand." ] ++
    (if lands = 0 then
      ["⚠️ 0 lands (needs real action from fast mana + selection)."] else []) ++
    (if 5 ≤ lands then
      ["⚠️ " ++ toString lands ++ " lands (flood risk)."] else []) ++
    (if selection = 0 then
      ["⚠️ No card selection/tutors in opener."] else []) ++
    (if payoff = 0 then
      ["⚠️ No payoff/pressure piece in opener (may still be fine if selection is strong)."]
    else []) ++
    (if 1 ≤ interaction then
      ["✅ Interaction present (" ++ toString interaction ++ ")."] else [])
  let decision :=
    if 2 ≤ sim.tier then "KEEP"
    else if sim.tier = 1 then
      if 1 ≤ lands || 2 ≤ selection then "KEEP" else "MULLIGAN"
    else
      if 2 ≤ lands && 1 ≤ interaction && 1 ≤ selection then "KEEP"
      else if 3 ≤ fastManaCount hand && 1 ≤ payoff && 1 ≤ selection then
        "KEEP"
      else "MULLIGAN"
  { decision := decision
    reasons := reasons
    line := sim.bestLine.take 12
    stats :=
      { lands := lands, interaction := interaction, selection := selection
        payoff := payoff, tier := sim.tier } }

/-! ## Engine step relation and measures -/

/-- One engine action: `t` results from applying a legal action of `s`. -/
def EngineStep (deck : DeckIndex) (s t : SimState) : Prop :=
  t ∈ childrenOf deck s

instance (deck : DeckIndex) (s t : SimState) : Decidable (EngineStep deck s t) := by
  unfold EngineStep; infer_instance

/-- States the engine can reach from a root by applying legal actions. -/
def EngineReach (deck : DeckIndex) : SimState → SimState → Prop :=
  Relation.ReflTransGen (EngineStep deck)

/-- Cards held across hand and battlefield. -/
def cardCount (s : SimState) : Nat := s.hand.length + s.battlefield.length

/-! ## Id-shift renaming (for the id-independence theorem) -/

def shiftPerm (k : Nat) (p : Perm) : Perm := { p with id := p.id + k }

def shiftState (k : Nat) (s : SimState) : SimState :=
  { s with battlefield := s.battlefield.map (shiftPerm k)
           nextId := s.nextId + k }

def shiftBest (k : Nat) (b : Best) : Best :=
  { b with final := b.final.map (shiftState k) }

/-! ## Concrete fixtures used by counterexamples and witnesses -/

def cardIsland : Card := ⟨"Island", "", "Basic Land — Island"⟩
def cardMoxSapphire : Card := ⟨"Mox Sapphire", "{0}", "Artifact"⟩
def cardMoxRuby : Card := ⟨"Mox Ruby", "{0}", "Artifact"⟩
def cardMoxJet : Card := ⟨"Mox Jet", "{0}", "Artifact"⟩
def cardTinker : Card := ⟨"Tinker", "{2}{U}", "Sorcery"⟩
def cardVoltaicKey : Card := ⟨"Voltaic Key", "{1}", "Artifact"⟩
def cardForceOfWill : Card := ⟨"Force of Will", "{3}{U}{U}", "Instant"⟩
def cardMindTwist : Card := ⟨"Mind Twist", "{4}{B}", "Sorcery"⟩

/-- A deck index whose mainboard lists Time Vault (as the real
`grixis-tinker-vintage` deck does). -/
def deckWithVault : DeckIndex := ⟨["Time Vault", "Tolarian Academy"], []⟩

/-- Hand that drives the Tinker resolution effect into the `TypeError`:
Tinker castable off three Moxen with Voltaic Key in hand and no Time Vault
in hand. -/
def handCrash : List Card :=
  [cardTinker, cardVoltaicKey, cardMoxSapphire, cardMoxRuby, cardMoxJet,
    cardForceOfWill, cardForceOfWill]

def rootCrash : SimState :=
  ((mkRoots handCrash 0)[0]?).getD (branchRoot [] [] 0 none)

def crash1 : SimState := ((childrenOf deckWithVault rootCrash)[0]?).getD rootCrash
def crash2 : SimState := ((childrenOf deckWithVault crash1)[1]?).getD rootCrash
def crash3 : SimState := ((childrenOf deckWithVault crash2)[1]?).getD rootCrash
def crash4 : SimState := ((childrenOf deckWithVault crash3)[0]?).getD rootCrash

/-- A 7-card hand with two lands: the engine's root state drops the unchosen
land from the search hand. -/
def handTwoLands : List Card :=
  [cardIsland, cardIsland, cardMindTwist, cardMindTwist, cardForceOfWill,
    cardForceOfWill, cardMindTwist]

def rootTwoLands : SimState :=
  ((mkRoots handTwoLands 0)[0]?).getD (branchRoot [] [] 0 none)

/-! ## General list lemmas -/

lemma assignPerms_length (l : List Card) (n : Nat) :
    (assignPerms l n).length = l.length := by
  induction l generalizing n with
  | nil => rfl
  | cons c rest ih => simp [assignPerms, ih]

lemma setTapped_length (bf : List Perm) (id : Nat) :
    (setTapped bf id).length = bf.length := by
  simp [setTapped]

lemma length_filter_split {α : Type} (p : α → Bool) (l : List α) :
    (l.filter p).length + (l.filter fun x => !p x).length = l.length := by
  induction l with
  | nil => rfl
  | cons a rest ih =>
    cases h : p a <;> simp [List.filter_cons, h, ← ih] <;> omega

lemma length_filter_lt_of_mem_not {α : Type} (p : α → Bool) {l : List α}
    {x : α} (hx : x ∈ l) (hp : p x = false) :
    (l.filter p).length < l.length := by
  induction l with
  | nil => cases hx
  | cons a rest ih =>
    rcases List.mem_cons.1 hx with h | h
    · subst h
      simp only [List.filter_cons, hp]
      exact Nat.lt_succ_of_le (List.length_filter_le _ _)
    · have hlt := ih h
      cases hpa : p a <;> simp only [List.filter_cons, hpa] <;> simp <;> omega

/-! ## Mana-layer theorems -/

lemma takeStep_fst_nonneg (v g : Int) : 0 ≤ (takeStep v g).1 := by
  simp only [takeStep]
  omega

/-- The function `pay` clamps every field during the generic stage (each final field is
`v - min v g`), so its result never has a negative field, whatever the input
pool or cost string. -/
theorem pay_nonneg (pool : Pool) (cost : String) : PoolNonneg (pay pool cost) := by
  refine ⟨?_, ?_, ?_, ?_, ?_, ?_, ?_⟩ <;>
    simp only [pay] <;> exact takeStep_fst_nonneg _ _

/-- Claim C1 counterexample: with the empty pool and cost string `{C}`,
`canPay` returns `false`, yet `pay` returns the all-zero pool, which has no
negative field.  The claimed equivalence fails right-to-left. -/
theorem canPay_iff_pay_nonneg_counterexample :
    canPay emptyPool "{C}" = false ∧ PoolNonneg (pay emptyPool "{C}") := by
  constructor
  · decide
  · decide

/-- Claim C1 (amended): only the left-to-right direction holds.  For every
pool with non-negative fields and every cost string, if `canPay` returns
`true` then `pay` returns a pool with no negative field.  (In fact `pay`
never returns a negative field at all; see `pay_nonneg`.) -/
theorem canPay_true_imp_pay_nonneg (pool : Pool) (cost : String)
    (hp : PoolNonneg pool) (hc : canPay pool cost = true) :
    PoolNonneg (pay pool cost) :=
  pay_nonneg pool cost

theorem canPay_true_imp_pay_nonneg_witness :
    PoolNonneg { emptyPool with U := 1 } ∧
      canPay { emptyPool with U := 1 } "{U}" = true ∧
      PoolNonneg (pay { emptyPool with U := 1 } "{U}") :=
  ⟨by decide, by decide,
    canPay_true_imp_pay_nonneg { emptyPool with U := 1 } "{U}"
      (by decide) (by decide)⟩

/-- Claim C4: whenever `canPay pool cost` holds for a pool with non-negative
fields, `pay pool cost` drives no resource negative: each of the seven
resulting fields is at least zero. -/
theorem pay_after_canPay_fields_nonneg (pool : Pool) (cost : String)
    (hp : PoolNonneg pool) (hc : canPay pool cost = true) :
    0 ≤ (pay pool cost).W ∧ 0 ≤ (pay pool cost).U ∧ 0 ≤ (pay pool cost).B ∧
      0 ≤ (pay pool cost).R ∧ 0 ≤ (pay pool cost).G ∧
      0 ≤ (pay pool cost).C ∧ 0 ≤ (pay pool cost).flex := by
  have h := pay_nonneg pool cost
  exact ⟨h.1, h.2.1, h.2.2.1, h.2.2.2.1, h.2.2.2.2.1, h.2.2.2.2.2.1,
    h.2.2.2.2.2.2⟩

theorem pay_after_canPay_fields_nonneg_witness :
    PoolNonneg { emptyPool with B := 2 } ∧
      canPay { emptyPool with B := 2 } "{B}" = true ∧
      (0 ≤ (pay { emptyPool with B := 2 } "{B}").W ∧
        0 ≤ (pay { emptyPool with B := 2 } "{B}").U ∧
        0 ≤ (pay { emptyPool with B := 2 } "{B}").B ∧
        0 ≤ (pay { emptyPool with B := 2 } "{B}").R ∧
        0 ≤ (pay { emptyPool with B := 2 } "{B}").G ∧
        0 ≤ (pay { emptyPool with B := 2 } "{B}").C ∧
        0 ≤ (pay { emptyPool with B := 2 } "{B}").flex) :=
  ⟨by decide, by decide,
    pay_after_canPay_fields_nonneg { emptyPool with B := 2 } "{B}"
      (by decide) (by decide)⟩

/-- Claim C5: `pay` follows exactly the fixed deduction order stated by the
spec (`paySpec`), and repeated calls on identical inputs return identical
pools (it is a pure function of its arguments). -/
theorem pay_matches_spec_order_and_deterministic (pool : Pool) (cost : String) :
    pay pool cost = paySpec pool cost ∧ pay pool cost = pay pool cost :=
  ⟨rfl, rfl⟩

/-- Claim C6 counterexample: the symbol group `{S}` is not all-digits, not a
single letter in W/U/B/R/G/C, not X/Y/Z and not slash-separated, yet it is
*not* ignored: it contributes 1 to the generic requirement. -/
theorem unrecognized_group_not_ignored_counterexample :
    parseManaCostReq "{S}" = { generic := 1 } ∧
      parseManaCostReq "{S}" ≠ ({} : Req) := by
  constructor
  · decide
  · decide

/-- Claim C6 (amended): `parseManaCostReq` is total, an unrecognized symbol
group contributes exactly 1 to the generic requirement (rather than being
ignored), and an empty or group-free cost string yields the all-zero
requirement. -/
theorem unrecognized_group_one_generic (g : List Char)
    (hd : isDigits g = false)
    (hm : g ∉ ([['X'], ['Y'], ['Z'], ['C'], ['W'], ['U'], ['B'], ['R'], ['G']] :
      List (List Char)))
    (hs : g.contains '/' = false) :
    reqSym g = { generic := 1 } ∧ parseManaCostReq "" = ({} : Req) := by
  simp only [List.mem_cons, List.mem_singleton, not_or] at hm
  obtain ⟨hX, hY, hZ, hC, hW, hU, hB, hR, hG, -⟩ := hm
  refine ⟨?_, rfl⟩
  simp [reqSym, hd, hs, hX, hY, hZ, hC, hW, hU, hB, hR, hG]

theorem unrecognized_group_one_generic_witness :
    isDigits ['S'] = false ∧ reqSym ['S'] = { generic := 1 } :=
  ⟨by decide,
    (unrecognized_group_one_generic ['S'] (by decide) (by decide)
      (by decide)).1⟩

/-! ## Scoring-tier and decision-rule theorems (claims C7, C8) -/

/-- Claim C7: the scoring heuristic assigns tier 3 exactly when a
virtual-win detector fires, else tier 2 when a strong-payoff ("big")
detector fires, else tier 1 when a selection/tutor spell is in the cast
history or the pool holds at least 2 total mana, else tier 0. -/
theorem scoreState_tier_rule (s : SimState) :
    (scoreState s).tier =
      if virtualWinD s = true then 3
      else if bigD s = true then 2
      else if castSelectionD s = true ∨ 2 ≤ sumMana s.pool then 1
      else 0 := by
  by_cases h1 : virtualWinD s = true <;>
    by_cases h2 : bigD s = true <;>
      by_cases h3 : castSelectionD s = true <;>
        by_cases h4 : 2 ≤ sumMana s.pool <;>
          simp [scoreState, h1, h2, h3, h4]

/-- Claim C8: the advisor's decision rule.  KEEP whenever the best tier is
at least 2; at tier 1, KEEP exactly when the hand has a land or two
selection spells; at tier 0, KEEP exactly when it has two lands plus
interaction plus selection, or three fast-mana artifacts plus a payoff plus
selection; MULLIGAN otherwise. -/
theorem analyzeMulligan_decision_rule (hand : List Card) (deck : DeckIndex)
    (idStart : Nat) :
    (analyzeMulligan hand deck idStart).decision =
      (if 2 ≤ (simulateTurn1 hand deck idStart).tier then "KEEP"
       else if (simulateTurn1 hand deck idStart).tier = 1 then
         if 1 ≤ (hand.filter isLand).length ∨
             2 ≤ (hand.filter fun c => isSelectionSpell c.name).length then
           "KEEP"
         else "MULLIGAN"
       else
         if (2 ≤ (hand.filter isLand).length ∧
              1 ≤ (hand.filter fun c => c.name ∈ INTERACTION).length ∧
              1 ≤ (hand.filter fun c => isSelectionSpell c.name).length) ∨
            (3 ≤ fastManaCount hand ∧
              1 ≤ (hand.filter fun c => isPayoff c.name).length ∧
              1 ≤ (hand.filter fun c => isSelectionSpell c.name).length) then
           "KEEP"
         else "MULLIGAN") := by
  simp only [analyzeMulligan, Bool.or_eq_true, Bool.and_eq_true,
    decide_eq_true_eq]
  split_ifs <;> first | rfl | tauto

/-! ## Crash reachability (claim C2) -/

/-- Claim C2 (code bug): from the root the engine builds for `handCrash`
(three Moxen pre-played, no land), tapping the three Moxen and then casting
Tinker reaches a state in which the Tinker resolution effect calls
`canPay` on a spread of the non-existent field `next.mana` with an object
cost, so the original JavaScript throws a `TypeError` inside
`analyzeMulligan` instead of returning a decision.  The model marks that
evaluation point with `crashed = true`. -/
theorem analyzeMulligan_crash_reachable :
    rootCrash ∈ mkRoots handCrash 0 ∧
      EngineReach deckWithVault rootCrash crash4 ∧ crash4.crashed = true := by
  refine ⟨by decide, ?_, by decide⟩
  have h1 : EngineStep deckWithVault rootCrash crash1 := by decide
  have h2 : EngineStep deckWithVault crash1 crash2 := by decide
  have h3 : EngineStep deckWithVault crash2 crash3 := by decide
  have h4 : EngineStep deckWithVault crash3 crash4 := by decide
  exact .tail (.tail (.tail (.tail .refl h1) h2) h3) h4

/-! ## Card-count conservation (claim C3) -/

/-- Claim C3 counterexample: for the 7-card hand `handTwoLands` (two
Islands), the first root state the engine searches — a reachable state, and
not one following a bounce effect (its notes list the start notes only) —
holds 5 cards in hand, 1 battlefield permanent (all battlefield permanents
of a root come from the hand) and an empty cast history: the total is 6,
not 7, because the engine drops every unchosen land from the search hand. -/
theorem card_count_conservation_counterexample :
    handTwoLands.length = 7 ∧
      rootTwoLands ∈ mkRoots handTwoLands 0 ∧
      EngineReach deckWithVault rootTwoLands rootTwoLands ∧
      rootTwoLands.cast = [] ∧
      rootTwoLands.hand.length + rootTwoLands.battlefield.length +
          rootTwoLands.cast.length = 6 ∧
      rootTwoLands.hand.length + rootTwoLands.battlefield.length +
          rootTwoLands.cast.length ≠ 7 := by
  exact ⟨by decide, by decide, .refl, by decide, by decide, by decide⟩

/-! ## Card-count monotonicity (claim C3, amended) -/

lemma cardCount_poEffect (st : SimState) : cardCount (poEffect st) = cardCount st := by
  unfold poEffect
  dsimp only
  split
  · split
    · simp only [cardCount, List.length_append, List.length_map,
        assignPerms_length]
      have h1 := length_filter_split
        (fun h => isArtifact h && parseCmc h.manaCost == 0)
        (st.hand ++ (st.battlefield.filter isArtifactP).map cardOf)
      have h2 := length_filter_split isArtifactP st.battlefield
      simp only [List.length_append, List.length_map] at h1
      omega
    · simp only [cardCount, List.length_append, List.length_map]
      have h2 := length_filter_split isArtifactP st.battlefield
      omega
  · rfl

lemma cardCount_cropEffect (deck : DeckIndex) (st : SimState) :
    cardCount (cropEffect deck st) ≤ cardCount st := by
  unfold cropEffect
  dsimp only
  split
  · split
    case _ land hfind =>
      have hmem := List.mem_of_find?_eq_some hfind
      have hlt := length_filter_lt_of_mem_not
        (fun p => decide (p.id ≠ land.id)) hmem (by simp)
      simp only [cardCount, List.length_append, List.length_cons,
        List.length_nil]
      omega
    case _ => exact le_refl _
  · exact le_refl _

lemma cardCount_tinkerEffect (deck : DeckIndex) (st : SimState) :
    cardCount (tinkerEffect deck st) = cardCount st := by
  unfold tinkerEffect
  dsimp only
  split
  · simp only [cardCount]
    split <;> rfl
  · split
    · simp only [cardCount]
      split <;> rfl
    · simp only [cardCount]
      split <;> rfl

lemma cardCount_castBase (s : SimState) (c : Card) (hc : c ∈ s.hand) :
    cardCount (castBase s c) ≤ cardCount s := by
  have herase : (s.hand.erase c).length = s.hand.length - 1 :=
    List.length_erase_of_mem hc
  have hpos : 0 < s.hand.length := List.length_pos.2 (List.ne_nil_of_mem hc)
  unfold castBase
  dsimp only
  simp only [cardCount]
  split
  all_goals
    try simp only [List.length_append, List.length_cons, List.length_nil]
  all_goals omega

lemma cardCount_castRun (deck : DeckIndex) (s : SimState) (c : Card)
    (hc : c ∈ s.hand) : cardCount (castRun deck s c) ≤ cardCount s := by
  have herase : (s.hand.erase c).length = s.hand.length - 1 :=
    List.length_erase_of_mem hc
  have hpos : 0 < s.hand.length := List.length_pos.2 (List.ne_nil_of_mem hc)
  unfold castRun
  dsimp only
  split
  · simp only [cardCount]
    omega
  · split <;> try rw [cardCount_tinkerEffect]
    all_goals split
    all_goals try refine le_trans (cardCount_cropEffect _ _) ?_
    all_goals split
    all_goals try rw [cardCount_poEffect]
    all_goals exact cardCount_castBase s c hc

lemma mem_permChildren {s : SimState} {a : Nat} {p : Perm} {t : SimState}
    (ht : t ∈ permChildren s a p) :
    t.hand = s.hand ∧ t.battlefield.length ≤ s.battlefield.length := by
  unfold permChildren at ht
  repeat' split at ht
  all_goals
    simp only [List.mem_singleton, List.mem_cons, List.not_mem_nil,
      or_false] at ht
  all_goals
    rcases ht with rfl | rfl <;>
      exact ⟨rfl, by simp [setTapped, List.length_filter_le]⟩

lemma cardCount_tapChild {s t : SimState} (ht : t ∈ tapChildren s) :
    cardCount t ≤ cardCount s := by
  unfold tapChildren at ht
  simp only [List.mem_flatMap] at ht
  obtain ⟨perm, hperm, hmem⟩ := ht
  split at hmem
  · simp at hmem
  · have h := mem_permChildren hmem
    simp only [cardCount, h.1]
    omega

lemma cardCount_child_le {deck : DeckIndex} {s t : SimState}
    (ht : t ∈ childrenOf deck s) : cardCount t ≤ cardCount s := by
  unfold childrenOf at ht
  rcases List.mem_append.1 ht with h | h
  · unfold castChildren at h
    simp only [List.mem_map] at h
    obtain ⟨c, hc, rfl⟩ := h
    exact cardCount_castRun deck s c
      (List.mem_of_mem_filter (List.mem_of_mem_filter hc))
  · exact cardCount_tapChild h

theorem cardCount_engineReach_le {deck : DeckIndex} {root s : SimState}
    (h : EngineReach deck root s) : cardCount s ≤ cardCount root := by
  induction h with
  | refl => exact le_refl _
  | tail hsteps hstep ih => exact le_trans (cardCount_child_le hstep) ih

lemma splitBase_lengths (l : List Card) (n : Nat) :
    (splitBase l n).1.length + (splitBase l n).2.1.length = l.length := by
  induction l generalizing n with
  | nil => rfl
  | cons c rest ih =>
    unfold splitBase
    dsimp only
    split
    · have := ih (n + 1)
      simp only [List.length_cons]
      omega
    · have := ih n
      simp only [List.length_cons]
      omega

theorem cardCount_root_le {hand : List Card} {idStart : Nat} {root : SimState}
    (hroot : root ∈ mkRoots hand idStart) : cardCount root ≤ hand.length := by
  unfold mkRoots at hroot
  dsimp only at hroot
  obtain ⟨lc, hlc, rfl⟩ := List.mem_map.1 hroot
  have hsplit := splitBase_lengths hand idStart
  have hfilter := length_filter_split isLand (splitBase hand idStart).2.1
  cases lc with
  | none =>
    simp only [cardCount, branchRoot, List.length_filter_le]
    have := List.length_filter_le (fun c => !isLand c)
      (splitBase hand idStart).2.1
    omega
  | some land =>
    split at hlc
    · simp at hlc
    · rename_i hemp
      have hne : (splitBase hand idStart).2.1.filter isLand ≠ [] := by
        intro heq
        exact hemp (by simp [heq])
      have hlen : 1 ≤ ((splitBase hand idStart).2.1.filter isLand).length :=
        List.length_pos.2 hne
      simp only [cardCount, branchRoot, List.length_append,
        List.length_cons, List.length_nil]
      omega

/-- Claim C3 (amended): no engine action increases the combined hand +
battlefield card count, so every state reachable by the search engine from a
root built for a 7-card hand holds at most 7 cards across hand and
battlefield.  The exact conservation the original claim states fails (see
the counterexample): the root drops unchosen lands, cast permanents sit in
both the battlefield and the cast history, and sacrifice effects remove
cards outright. -/
theorem reachable_hand_battlefield_le_seven (hand : List Card)
    (deck : DeckIndex) (idStart : Nat) (root s : SimState)
    (h7 : hand.length = 7) (hroot : root ∈ mkRoots hand idStart)
    (hreach : EngineReach deck root s) :
    s.hand.length + s.battlefield.length ≤ 7 := by
  have h1 := cardCount_engineReach_le hreach
  have h2 := cardCount_root_le hroot
  unfold cardCount at h1 h2
  omega

theorem reachable_hand_battlefield_le_seven_witness :
    handTwoLands.length = 7 ∧ rootTwoLands ∈ mkRoots handTwoLands 0 ∧
      rootTwoLands.hand.length + rootTwoLands.battlefield.length ≤ 7 :=
  ⟨by decide, by decide,
    reachable_hand_battlefield_le_seven handTwoLands deckWithVault 0
      rootTwoLands rootTwoLands (by decide) (by decide) .refl⟩

/-! ## Search dedup (claim C9) -/

lemma dfs_foldl_nodup (deck : DeckIndex) (fuel : Nat)
    (ih : ∀ s seen best, seen.Nodup → ((dfs deck fuel s seen best).1).Nodup) :
    ∀ (l : List SimState) (acc : List StateKey × Best), acc.1.Nodup →
      ((l.foldl (fun acc c => dfs deck fuel c acc.1 acc.2) acc).1).Nodup := by
  intro l
  induction l with
  | nil => intro acc h; exact h
  | cons x rest ihl =>
    intro acc h
    simp only [List.foldl_cons]
    exact ihl _ (ih x acc.1 acc.2 h)

/-- Claim C9: the depth-first search is a total function (it always returns,
so only finitely many states are scored), and within one root branch it
never visits a canonical state key twice: a state is keyed, checked against
the visited set and recorded before being scored, so starting from a
duplicate-free visited set (each branch starts from the empty set in
`simulateTurn1`), the visited set stays duplicate-free — every key in it was
scored exactly once. -/
theorem dfs_visited_nodup (deck : DeckIndex) (fuel : Nat) (s : SimState)
    (seen : List StateKey) (best : Best) (hnd : seen.Nodup) :
    ((dfs deck fuel s seen best).1).Nodup := by
  induction fuel generalizing s seen best with
  | zero =>
    simp only [dfs]
    split
    · exact hnd
    · rename_i h
      exact List.nodup_cons.2 ⟨h, hnd⟩
  | succ fuel ih =>
    simp only [dfs]
    split
    · exact hnd
    · rename_i h
      split
      · exact List.nodup_cons.2 ⟨h, hnd⟩
      · exact dfs_foldl_nodup deck fuel ih _ _
          (List.nodup_cons.2 ⟨h, hnd⟩)

theorem dfs_visited_nodup_witness :
    ([] : List StateKey).Nodup ∧
      ((dfs deckWithVault 18 (branchRoot [] [] 0 none) [] bestInit).1).Nodup :=
  ⟨List.nodup_nil,
    dfs_visited_nodup deckWithVault 18 (branchRoot [] [] 0 none) [] bestInit
      List.nodup_nil⟩

/-! ## Id-independence (claim C10)

The engine's observable output must not depend on the opaque permanent ids.
We prove that shifting every id (and the fresh-id counter) by a constant `k`
commutes with every engine operation and leaves every observable component
(keys, scores, notes, decisions) unchanged; id-start independence of
`analyzeMulligan` follows. -/

@[simp] lemma shiftPerm_name (k : Nat) (p : Perm) :
    (shiftPerm k p).name = p.name := rfl

@[simp] lemma shiftPerm_manaCost (k : Nat) (p : Perm) :
    (shiftPerm k p).manaCost = p.manaCost := rfl

@[simp] lemma shiftPerm_typeLine (k : Nat) (p : Perm) :
    (shiftPerm k p).typeLine = p.typeLine := rfl

@[simp] lemma shiftPerm_tapped (k : Nat) (p : Perm) :
    (shiftPerm k p).tapped = p.tapped := rfl

@[simp] lemma shiftPerm_id (k : Nat) (p : Perm) :
    (shiftPerm k p).id = p.id + k := rfl

@[simp] lemma shiftState_hand (k : Nat) (s : SimState) :
    (shiftState k s).hand = s.hand := rfl

@[simp] lemma shiftState_battlefield (k : Nat) (s : SimState) :
    (shiftState k s).battlefield = s.battlefield.map (shiftPerm k) := rfl

@[simp] lemma shiftState_pool (k : Nat) (s : SimState) :
    (shiftState k s).pool = s.pool := rfl

@[simp] lemma shiftState_landName (k : Nat) (s : SimState) :
    (shiftState k s).landName = s.landName := rfl

@[simp] lemma shiftState_cast (k : Nat) (s : SimState) :
    (shiftState k s).cast = s.cast := rfl

@[simp] lemma shiftState_notes (k : Nat) (s : SimState) :
    (shiftState k s).notes = s.notes := rfl

@[simp] lemma shiftState_nextId (k : Nat) (s : SimState) :
    (shiftState k s).nextId = s.nextId + k := rfl

@[simp] lemma shiftState_crashed (k : Nat) (s : SimState) :
    (shiftState k s).crashed = s.crashed := rfl

@[simp] lemma shiftBest_score (k : Nat) (b : Best) :
    (shiftBest k b).score = b.score := rfl

@[simp] lemma shiftBest_tier (k : Nat) (b : Best) :
    (shiftBest k b).tier = b.tier := rfl

@[simp] lemma shiftBest_notes (k : Nat) (b : Best) :
    (shiftBest k b).notes = b.notes := rfl

@[simp] lemma isLandP_shiftPerm (k : Nat) (p : Perm) :
    isLandP (shiftPerm k p) = isLandP p := rfl

@[simp] lemma isArtifactP_shiftPerm (k : Nat) (p : Perm) :
    isArtifactP (shiftPerm k p) = isArtifactP p := rfl

@[simp] lemma cardOf_shiftPerm (k : Nat) (p : Perm) :
    cardOf (shiftPerm k p) = cardOf p := rfl

@[simp] lemma bfKeyStr_shiftPerm (k : Nat) (p : Perm) :
    bfKeyStr (shiftPerm k p) = bfKeyStr p := rfl

@[simp] lemma permOf_shift (k : Nat) (c : Card) (n : Nat) :
    shiftPerm k (permOf c n) = permOf c (n + k) := rfl

/-- Commutation of `filter` with `map`. -/
lemma filterMapComm {α β : Type} (f : α → β) (p : β → Bool) (l : List α) :
    (l.map f).filter p = (l.filter fun x => p (f x)).map f := by
  induction l with
  | nil => rfl
  | cons a rest ih =>
    simp only [List.map_cons, List.filter_cons]
    cases p (f a) <;> simp [ih]

/-- Commutation of `find?` with `map`. -/
lemma findMapComm {α β : Type} (f : α → β) (p : β → Bool) (l : List α) :
    (l.map f).find? p = (l.find? fun x => p (f x)).map f := by
  induction l with
  | nil => rfl
  | cons a rest ih =>
    simp only [List.map_cons, List.find?_cons]
    cases p (f a) <;> simp [ih]

/-- Commutation of `any` with `map`. -/
lemma anyMapComm {α β : Type} (f : α → β) (p : β → Bool) (l : List α) :
    (l.map f).any p = l.any fun x => p (f x) := by
  induction l with
  | nil => rfl
  | cons a rest ih => simp [ih]

lemma assignPerms_shift (k : Nat) (l : List Card) (n : Nat) :
    assignPerms l (n + k) = (assignPerms l n).map (shiftPerm k) := by
  induction l generalizing n with
  | nil => rfl
  | cons c rest ih =>
    simp only [assignPerms, List.map_cons, permOf_shift]
    rw [show n + k + 1 = n + 1 + k by omega, ih (n + 1)]

@[simp] lemma handHas_shift (k : Nat) (s : SimState) (n : String) :
    handHas (shiftState k s) n = handHas s n := rfl

@[simp] lemma bfHas_shift (k : Nat) (s : SimState) (n : String) :
    bfHas (shiftState k s) n = bfHas s n := by
  simp only [bfHas, shiftState_battlefield, anyMapComm, shiftPerm_name]

lemma stateKey_shift (k : Nat) (s : SimState) :
    stateKey (shiftState k s) = stateKey s := by
  simp only [stateKey, shiftState_hand, shiftState_battlefield,
    shiftState_landName, shiftState_pool, List.map_map]
  rw [show bfKeyStr ∘ shiftPerm k = bfKeyStr from funext fun p => rfl]

lemma poEffect_shift (k : Nat) (st : SimState) :
    poEffect (shiftState k st) = shiftState k (poEffect st) := by
  unfold poEffect
  simp only [shiftState_hand, shiftState_battlefield, shiftState_nextId,
    shiftState_notes, filterMapComm, isArtifactP_shiftPerm, List.length_map,
    List.map_map]
  rw [show cardOf ∘ shiftPerm k = cardOf from funext fun p => rfl]
  split
  · split
    · simp [shiftState, assignPerms_shift, Nat.add_right_comm]
    · simp [shiftState]
  · rfl

lemma cropEffect_shift (k : Nat) (deck : DeckIndex) (st : SimState) :
    cropEffect deck (shiftState k st) = shiftState k (cropEffect deck st) := by
  unfold cropEffect
  simp only [shiftState_battlefield, shiftState_nextId, shiftState_notes,
    anyMapComm, isLandP_shiftPerm, isArtifactP_shiftPerm, filterMapComm,
    List.length_map, findMapComm]
  split
  · cases hfind : st.battlefield.find? isLandP with
    | none => simp [hfind]
    | some land =>
      simp only [hfind, Option.map_some]
      simp [shiftState, shiftPerm, filterMapComm, Nat.add_right_comm]
  · rfl

lemma tinkerEffect_shift (k : Nat) (deck : DeckIndex) (st : SimState) :
    tinkerEffect deck (shiftState k st) = shiftState k (tinkerEffect deck st) := by
  unfold tinkerEffect
  simp only [shiftState_battlefield, shiftState_hand, anyMapComm,
    isArtifactP_shiftPerm, shiftPerm_name]
  split
  · split <;> simp [shiftState]
  · split
    · split <;> simp [shiftState]
    · split <;> simp [shiftState]

lemma castBase_shift (k : Nat) (s : SimState) (c : Card) :
    castBase (shiftState k s) c = shiftState k (castBase s c) := by
  unfold castBase
  dsimp only
  simp [shiftState, apply_ite (List.map (shiftPerm k)),
    apply_ite (fun n => n + k), Nat.add_right_comm]

lemma castRun_shift (k : Nat) (deck : DeckIndex) (s : SimState) (c : Card) :
    castRun deck (shiftState k s) c = shiftState k (castRun deck s c) := by
  unfold castRun
  dsimp only
  split
  · simp [shiftState]
  · simp only [castBase_shift, poEffect_shift, cropEffect_shift,
      tinkerEffect_shift, ← apply_ite (shiftState k)]

@[simp] lemma getArtifactsCount_shift (k : Nat) (bf : List Perm) :
    getArtifactsCount (bf.map (shiftPerm k)) = getArtifactsCount bf := by
  simp [getArtifactsCount, filterMapComm]

lemma setTapped_shift (k : Nat) (bf : List Perm) (id : Nat) :
    setTapped (bf.map (shiftPerm k)) (id + k) =
      (setTapped bf id).map (shiftPerm k) := by
  unfold setTapped
  rw [List.map_map, List.map_map]
  apply List.map_congr_left
  intro c _
  by_cases h : c.id = id
  · simp [Function.comp, shiftPerm, h]
  · have h2 : ¬(c.id + k = id + k) := by omega
    simp [Function.comp, shiftPerm, h, h2]

lemma permChildren_shift (k : Nat) (s : SimState) (a : Nat) (p : Perm) :
    permChildren (shiftState k s) a (shiftPerm k p) =
      (permChildren s a p).map (shiftState k) := by
  unfold permChildren
  simp only [isLandP_shiftPerm, shiftPerm_name, shiftPerm_id,
    shiftState_battlefield, shiftState_pool, shiftState_notes,
    getArtifactsCount_shift]
  repeat' split
  all_goals
    simp [shiftState, setTapped_shift, filterMapComm,
      Nat.add_right_cancel_iff]

lemma flatMapMapComm {α β γ : Type} (f : α → β) (g : β → List γ)
    (l : List α) : (l.map f).flatMap g = l.flatMap fun x => g (f x) := by
  induction l with
  | nil => rfl
  | cons a rest ih => simp [ih]

lemma mapFlatMapComm {α β γ : Type} (g : α → List β) (h : β → γ)
    (l : List α) : (l.flatMap g).map h = l.flatMap fun x => (g x).map h := by
  induction l with
  | nil => rfl
  | cons a rest ih => simp [ih]

lemma tapChildren_shift (k : Nat) (s : SimState) :
    tapChildren (shiftState k s) = (tapChildren s).map (shiftState k) := by
  unfold tapChildren
  simp only [shiftState_battlefield, flatMapMapComm, shiftPerm_tapped,
    getArtifactsCount_shift, permChildren_shift, mapFlatMapComm,
    apply_ite (List.map (shiftState k)), List.map_nil]

lemma castChildren_shift (k : Nat) (deck : DeckIndex) (s : SimState) :
    castChildren deck (shiftState k s) = (castChildren deck s).map (shiftState k) := by
  unfold castChildren
  rw [show castOk (shiftState k s) = castOk s from funext fun c => rfl,
    List.map_map]
  apply List.map_congr_left
  intro c _
  exact castRun_shift k deck s c

lemma childrenOf_shift (k : Nat) (deck : DeckIndex) (s : SimState) :
    childrenOf deck (shiftState k s) = (childrenOf deck s).map (shiftState k) := by
  unfold childrenOf
  rw [castChildren_shift, tapChildren_shift, List.map_append]

@[simp] lemma infiniteTurnsD_shift (k : Nat) (s : SimState) :
    infiniteTurnsD (shiftState k s) = infiniteTurnsD s := by
  simp [infiniteTurnsD]

@[simp] lemma tinkerWinD_shift (k : Nat) (s : SimState) :
    tinkerWinD (shiftState k s) = tinkerWinD s := rfl

@[simp] lemma trinketVaultWinD_shift (k : Nat) (s : SimState) :
    trinketVaultWinD (shiftState k s) = trinketVaultWinD s := by
  simp [trinketVaultWinD]

@[simp] lemma demonicVaultWinD_shift (k : Nat) (s : SimState) :
    demonicVaultWinD (shiftState k s) = demonicVaultWinD s := by
  simp [demonicVaultWinD]

@[simp] lemma vaultKeyForceBackupD_shift (k : Nat) (s : SimState) :
    vaultKeyForceBackupD (shiftState k s) = vaultKeyForceBackupD s := by
  simp [vaultKeyForceBackupD]

@[simp] lemma trinketBaubleD_shift (k : Nat) (s : SimState) :
    trinketBaubleD (shiftState k s) = trinketBaubleD s := by
  simp [trinketBaubleD]

@[simp] lemma tezzBaubleD_shift (k : Nat) (s : SimState) :
    tezzBaubleD (shiftState k s) = tezzBaubleD s := by
  simp [tezzBaubleD]

@[simp] lemma tezzTimeWalkWinD_shift (k : Nat) (s : SimState) :
    tezzTimeWalkWinD (shiftState k s) = tezzTimeWalkWinD s := by
  simp [tezzTimeWalkWinD, filterMapComm]

@[simp] lemma balanceComboD_shift (k : Nat) (s : SimState) :
    balanceComboD (shiftState k s) = balanceComboD s := rfl

@[simp] lemma bigD_shift (k : Nat) (s : SimState) :
    bigD (shiftState k s) = bigD s := by
  simp [bigD]

@[simp] lemma castSelectionD_shift (k : Nat) (s : SimState) :
    castSelectionD (shiftState k s) = castSelectionD s := rfl

@[simp] lemma ancestralWithForceD_shift (k : Nat) (s : SimState) :
    ancestralWithForceD (shiftState k s) = ancestralWithForceD s := rfl

@[simp] lemma tutorForTinkerD_shift (k : Nat) (s : SimState) :
    tutorForTinkerD (shiftState k s) = tutorForTinkerD s := by
  simp [tutorForTinkerD, filterMapComm]

@[simp] lemma permanentManaCount_shift (k : Nat) (s : SimState) :
    permanentManaCount (shiftState k s) = permanentManaCount s := by
  simp [permanentManaCount, filterMapComm]

@[simp] lemma virtualWinD_shift (k : Nat) (s : SimState) :
    virtualWinD (shiftState k s) = virtualWinD s := by
  simp [virtualWinD]

lemma scoreState_shift (k : Nat) (s : SimState) :
    scoreState (shiftState k s) = scoreState s := by
  simp [scoreState]

lemma updateBest_shift (k : Nat) (b : Best) (sc : Scored) (s : SimState) :
    updateBest (shiftBest k b) sc (shiftState k s) =
      shiftBest k (updateBest b sc s) := by
  unfold updateBest
  rw [show betterThan sc (shiftBest k b) = betterThan sc b from rfl]
  split
  · simp [shiftBest]
  · rfl

lemma mapIsEmpty {α β : Type} (f : α → β) (l : List α) :
    (l.map f).isEmpty = l.isEmpty := by
  cases l <;> rfl

lemma dfs_shift (k : Nat) (deck : DeckIndex) (fuel : Nat) (s : SimState)
    (seen : List StateKey) (b : Best) :
    dfs deck fuel (shiftState k s) seen (shiftBest k b) =
      ((dfs deck fuel s seen b).1, shiftBest k (dfs deck fuel s seen b).2) := by
  induction fuel generalizing s seen b with
  | zero =>
    simp only [dfs, stateKey_shift, scoreState_shift]
    split
    · rfl
    · rw [updateBest_shift]
  | succ fuel ih =>
    have aux : ∀ (l : List SimState) (seen1 : List StateKey) (b1 : Best),
        (l.map (shiftState k)).foldl
            (fun acc c => dfs deck fuel c acc.1 acc.2)
            (seen1, shiftBest k b1) =
          ((l.foldl (fun acc c => dfs deck fuel c acc.1 acc.2)
              (seen1, b1)).1,
            shiftBest k (l.foldl (fun acc c => dfs deck fuel c acc.1 acc.2)
              (seen1, b1)).2) := by
      intro l
      induction l with
      | nil => intro seen1 b1; rfl
      | cons x rest ihl =>
        intro seen1 b1
        simp only [List.map_cons, List.foldl_cons]
        rw [ih x seen1 b1]
        exact ihl _ _
    simp only [dfs, stateKey_shift, scoreState_shift, childrenOf_shift,
      mapIsEmpty]
    split
    · rfl
    · by_cases hke : (childrenOf deck s).isEmpty = true
      · simp only [hke, if_true, updateBest_shift]
      · simp only [hke, if_false, updateBest_shift]
        exact aux _ _ _

lemma splitBase_shift (k : Nat) (l : List Card) (n : Nat) :
    splitBase l (n + k) =
      ((splitBase l n).1.map (shiftPerm k), (splitBase l n).2.1,
        (splitBase l n).2.2 + k) := by
  induction l generalizing n with
  | nil => rfl
  | cons c rest ih =>
    unfold splitBase
    dsimp only
    split
    · rw [show n + k + 1 = n + 1 + k by omega, ih (n + 1)]
      simp
    · rw [ih n]

@[simp] lemma startNote_shift (k : Nat) (bf : List Perm) :
    startNote (bf.map (shiftPerm k)) = startNote bf := by
  simp only [startNote, mapIsEmpty, List.map_map]
  rw [show Perm.name ∘ shiftPerm k = Perm.name from funext fun p => rfl]

lemma branchRoot_shift (k : Nat) (bfBase : List Perm) (nonLands : List Card)
    (nid : Nat) (lc : Option Card) :
    branchRoot (bfBase.map (shiftPerm k)) nonLands (nid + k) lc =
      shiftState k (branchRoot bfBase nonLands nid lc) := by
  cases lc with
  | none => simp [branchRoot, shiftState]
  | some land => simp [branchRoot, shiftState, Nat.add_right_comm]

lemma mkRoots_shift (hand : List Card) (n k : Nat) :
    mkRoots hand (n + k) = (mkRoots hand n).map (shiftState k) := by
  unfold mkRoots
  dsimp only
  rw [splitBase_shift, List.map_map]
  apply List.map_congr_left
  intro lc _
  exact branchRoot_shift k _ _ _ lc

lemma simulateTurn1_shift (k : Nat) (hand : List Card) (deck : DeckIndex)
    (n : Nat) :
    (simulateTurn1 hand deck (n + k)).tier =
        (simulateTurn1 hand deck n).tier ∧
      (simulateTurn1 hand deck (n + k)).bestLine =
        (simulateTurn1 hand deck n).bestLine := by
  have aux : ∀ (roots : List SimState) (b : Best),
      (roots.map (shiftState k)).foldl
          (fun b root => (dfs deck 18 root [] b).2) (shiftBest k b) =
        shiftBest k
          (roots.foldl (fun b root => (dfs deck 18 root [] b).2) b) := by
    intro roots
    induction roots with
    | nil => intro b; rfl
    | cons r rest ihr =>
      intro b
      simp only [List.map_cons, List.foldl_cons]
      rw [dfs_shift]
      exact ihr _
  unfold simulateTurn1
  dsimp only
  rw [mkRoots_shift,
    show (bestInit : Best) = shiftBest k bestInit from rfl, aux]
  exact ⟨rfl, rfl⟩

/-- Claim C10: `analyzeMulligan` is deterministic and independent of the
opaque permanent ids: whatever the starting value of the id counter (the
model of `uniqId`), the full result record — decision, reasons, line and
stats — is identical, because ids never enter the canonical state keys, the
scoring detectors, the notes or the decision logic. -/
theorem analyzeMulligan_id_independent (hand : List Card) (deck : DeckIndex)
    (n m : Nat) :
    analyzeMulligan hand deck n = analyzeMulligan hand deck m := by
  suffices h : ∀ j, analyzeMulligan hand deck j = analyzeMulligan hand deck 0 by
    rw [h n, h m]
  intro j
  have hsim := simulateTurn1_shift j hand deck 0
  rw [Nat.zero_add] at hsim
  simp only [analyzeMulligan, hsim.1, hsim.2]
